import Mathlib

/-!
Verification of the domain cleanup pipeline (`src/domain_cleaner.py`,
`src/remove_domains.py`).

Strings are manipulated through their underlying character lists so that every
operation is an explicit, structurally recursive function.  Python semantics
notes: `str.strip()` is modelled with `Char.isWhitespace` (ASCII whitespace;
Python also strips some further Unicode space characters, which no claim
exercises), `str.lower()` with the ASCII `Char.toLower`, and the regex classes
`\w`/`\d` with the ASCII `Char.isAlphanum`/`Char.isDigit` (the Python regexes
are Unicode-aware; no claim exercises non-ASCII input).
-/

deriving instance DecidableEq for Except

/-- Python `str.strip()`: drop whitespace from both ends. -/
def pyStrip (s : String) : String :=
  ⟨((s.data.dropWhile Char.isWhitespace).reverse.dropWhile Char.isWhitespace).reverse⟩

/-- Python `str.rstrip('.')` as used at `domain_cleaner.py:108`. -/
def stripTrailingDots (s : String) : String :=
  ⟨(s.data.reverse.dropWhile (fun c => c == '.')).reverse⟩

/-- Python `str.lower()` (ASCII case folding). -/
def pyLower (s : String) : String :=
  ⟨s.data.map Char.toLower⟩

/-- Python slicing `s[n:]` (by code points). -/
def strDrop (s : String) (n : Nat) : String :=
  ⟨s.data.drop n⟩

/-- Python `s.startswith(pre)`. -/
def pyStartsWith (s pre : String) : Bool :=
  List.isPrefixOf pre.data s.data

/-- The regex `^[a-zA-Z]+://` of `domain_cleaner.py:111`: one or more ASCII
letters followed by `://` at the start of the string. -/
def matchesScheme (s : String) : Bool :=
  let letters := s.data.takeWhile Char.isAlpha
  !letters.isEmpty && List.isPrefixOf [':', '/', '/'] (s.data.drop letters.length)

/-- The leading strip of CPython `urlsplit`: `url.lstrip` of the WHATWG C0
control and space characters (code points `0x00`-`0x20`). -/
def lstripC0Space (l : List Char) : List Char :=
  l.dropWhile (fun c => c.toNat ≤ 0x20)

/-- CPython `urlsplit` removes every ASCII tab, carriage return and line feed
from the URL before parsing (`_UNSAFE_URL_BYTES_TO_REMOVE`). -/
def removeTabCrLf (l : List Char) : List Char :=
  l.filter (fun c => !(c == '\t') && !(c == '\r') && !(c == '\n'))

/-- CPython `scheme_chars`: ASCII letters, digits, `+`, `-` and `.`. -/
def schemeChars (c : Char) : Bool :=
  c.isAlphanum || c == '+' || c == '-' || c == '.'

/-- The scheme-splitting step of CPython `urlsplit`: if the first `:` sits at
a positive index, the first character is an ASCII letter, and everything up
to the colon is a scheme character, drop the scheme and the colon. -/
def stripScheme (url : List Char) : List Char :=
  match url.findIdx? (fun c => c == ':') with
  | some i =>
    if 0 < i ∧ (match url with | c :: _ => c.isAlpha | [] => false) = true ∧
        ((url.take i).drop 1).all schemeChars = true
    then url.drop (i + 1) else url
  | none => url

/-- The netloc extraction of CPython `urlsplit` after scheme removal: when the
remainder starts with `//`, the netloc runs to the first `/`, `?` or `#`
(`_splitnetloc`), and an unbalanced `[`/`]` raises
`ValueError("Invalid IPv6 URL")`; otherwise the netloc is empty.  (The NFKC
`_checknetloc` raise, reachable only for non-ASCII netlocs, is not modelled;
no claim exercises non-ASCII input.) -/
def netlocChar (c : Char) : Bool :=
  !(c == '/') && !(c == '?') && !(c == '#')

/-- The unbalanced-bracket test of CPython `urlsplit` on a netloc. -/
def badBrackets (l : List Char) : Bool :=
  (l.contains '[' && !l.contains ']') || (l.contains ']' && !l.contains '[')

def netlocSplit (url : List Char) : Except String String :=
  match url with
  | '/' :: '/' :: rest =>
    if badBrackets (rest.takeWhile netlocChar) then Except.error "Invalid IPv6 URL"
    else Except.ok ⟨rest.takeWhile netlocChar⟩
  | _ => Except.ok ""

/-- `urllib.parse.urlparse(s).netloc` as called at `domain_cleaner.py:112`:
lstrip C0 controls/space, remove tab/CR/LF, split off the scheme, then
extract the netloc — raising on an unbalanced-bracket host. -/
def urlparseNetloc (s : String) : Except String String :=
  netlocSplit (stripScheme (removeTabCrLf (lstripC0Space s.data)))

/-- The URL-handling step of `domain_cleaner.py:111-113`:
`cleaned = parsed.netloc or cleaned` under the scheme-regex guard, with the
`urlparse` exception propagating uncaught. -/
def urlStep (s : String) : Except String String :=
  if matchesScheme s then
    match urlparseNetloc s with
    | Except.error e => Except.error e
    | Except.ok netloc => Except.ok (if netloc = "" then s else netloc)
  else Except.ok s

/-- The `www.` stripping step of `domain_cleaner.py:116-117`. -/
def wwwStep (s : String) : String :=
  if pyStartsWith (pyLower s) "www." then strDrop s 4 else s

/-- The normalization chain of `domain_cleaner.py:107-117`: strip trailing
dots, extract a URL host (which may raise), strip a `www.` prefix. -/
def normalize_host (s : String) : Except String String :=
  match urlStep (stripTrailingDots s) with
  | Except.error e => Except.error e
  | Except.ok t => Except.ok (wwwStep t)

/-- Splitting a character list at `'.'` separators, with Python
`str.split('.')` semantics (empty pieces are kept; the empty string yields
one empty piece). -/
def splitCharList : List Char → List (List Char)
  | [] => [[]]
  | c :: rest =>
    if c = '.' then [] :: splitCharList rest
    else
      match splitCharList rest with
      | [] => [[c]]
      | l :: ls => (c :: l) :: ls

/-- Python `domain.split('.')`, as a list of label character lists. -/
def splitLabels (s : String) : List (List Char) :=
  splitCharList s.data

/-- The regex `^\d+(\.\d+){3}$` of `domain_cleaner.py:120`: exactly four
groups of one or more digits separated by three dots. -/
def isIpQuad (s : String) : Bool :=
  match splitCharList s.data with
  | [a, b, c, d] => [a, b, c, d].all (fun g => !g.isEmpty && g.all Char.isDigit)
  | _ => false

/-- The regex `^[\w\-.]+$` of `domain_cleaner.py:124`: a non-empty string of
word characters, hyphens and dots. -/
def isValidChars (s : String) : Bool :=
  !s.data.isEmpty && s.data.all (fun c => c.isAlphanum || c == '_' || c == '-' || c == '.')

/-- Whether a label starts with a hyphen (`label.startswith('-')`). -/
def startsWithHyphen : List Char → Bool
  | c :: _ => c == '-'
  | [] => false

/-- Whether a label contains two consecutive hyphens (`'--' in label`). -/
def hasConsecHyphens : List Char → Bool
  | [] => false
  | [_] => false
  | a :: b :: rest => (a == '-' && b == '-') || hasConsecHyphens (b :: rest)

/-- Lithuanian institutional second-level names (`domain_cleaner.py:10`). -/
def GOV_DOMAINS : List String := ["lrv", "edu", "mil"]

/-- Lithuanian institutional suffixes (`domain_cleaner.py:11`). -/
def GOV_SUFFIXES : List String := ["lrv.lt", "edu.lt", "mil.lt", "gov.lt"]

/-- Label-by-label length check (`domain_cleaner.py:68-74`): Python iterates
the labels and returns on the first failure. -/
def lengthCheck : List (List Char) → Bool × Option String
  | [] => (true, none)
  | l :: rest =>
    if l.length == 1 then (false, some "single character label")
    else if l.length > 63 then (false, some "label exceeds 63 characters")
    else lengthCheck rest

/-- `is_valid_domain_length` of `domain_cleaner.py:63-74`. -/
def is_valid_domain_length (domain : String) : Bool × Option String :=
  lengthCheck (splitLabels domain)

/-- Label-by-label hyphen check (`domain_cleaner.py:84-92`): leading hyphen,
then trailing hyphen, then consecutive hyphens, first failure wins. -/
def hyphenCheck : List (List Char) → Bool × Option String
  | [] => (true, none)
  | l :: rest =>
    if startsWithHyphen l then (false, some "hyphen at start of label")
    else if startsWithHyphen l.reverse then (false, some "hyphen at end of label")
    else if hasConsecHyphens l then (false, some "consecutive hyphens")
    else hyphenCheck rest

/-- `is_valid_hyphen_rules` of `domain_cleaner.py:76-92`. -/
def is_valid_hyphen_rules (domain : String) : Bool × Option String :=
  hyphenCheck (splitLabels domain)

/-- The `{subdomain, domain, suffix}` triple produced by the public-suffix
resolver (`tldextract.extract`). -/
structure ExtractResult where
  subdomain : String
  domain : String
  suffix : String
deriving DecidableEq

/-- The shared validate-and-accept tail of both accepting branches of
`process_domain` (`domain_cleaner.py:139-145` and `151-157`). -/
def validateCandidate (domain : String) : Option String × Option String :=
  match is_valid_domain_length domain with
  | (false, reason) => (none, reason)
  | (true, _) =>
    match is_valid_hyphen_rules domain with
    | (false, reason) => (none, reason)
    | (true, _) => (some domain, none)

/-- The suffix-policy tail of `process_domain` (`domain_cleaner.py:129-159`):
given the resolver's triple, reject unresolved names, apply the government
carve-out, the commercial `.lt` rule, and the non-`.lt` rejection. -/
def classify (ext : ExtractResult) : Option String × Option String :=
  if ext.domain = "" ∨ ext.suffix = "" then (none, some "invalid domain/suffix")
  else if ext.suffix ∈ GOV_SUFFIXES ∨ (ext.suffix = "lt" ∧ ext.domain ∈ GOV_DOMAINS) then
    validateCandidate
      (if ext.subdomain ≠ "" then ext.subdomain ++ "." ++ (ext.domain ++ "." ++ ext.suffix)
       else ext.domain ++ "." ++ ext.suffix)
  else if ext.suffix = "lt" then
    if ext.subdomain ≠ "" then (none, some "non-govt subdomain")
    else validateCandidate (ext.domain ++ "." ++ ext.suffix)
  else (none, some "non-.lt domain")

/-- `process_domain` of `domain_cleaner.py:94-159`, parameterized by the
external public-suffix resolver.  Returns `Except.ok (domain, none)` on
success and `Except.ok (none, reason)` on rejection, mirroring the Python
tuple; an exception raised by `urlparse` propagates as `Except.error`
(the function has no handler for it). -/
def process_domain (extractFn : String → ExtractResult) (raw : Option String) :
    Except String (Option String × Option String) :=
  match raw with
  | none => Except.ok (none, some "empty")
  | some raw =>
    if pyStrip raw = "" then Except.ok (none, some "empty line")
    else
      match normalize_host (pyStrip raw) with
      | Except.error e => Except.error e
      | Except.ok host =>
        if isIpQuad host then Except.ok (none, some "ip address")
        else if !isValidChars host then Except.ok (none, some "invalid characters")
        else Except.ok (classify (extractFn (pyLower host)))

/-- The stable rejection-reason vocabulary (spec section 6). -/
def REASONS : List String :=
  ["empty", "empty line", "ip address", "invalid characters", "invalid domain/suffix",
   "single character label", "label exceeds 63 characters", "hyphen at start of label",
   "hyphen at end of label", "consecutive hyphens", "non-govt subdomain", "non-.lt domain"]

/-- Joining labels with dots (`'.'.join`). -/
def joinDots : List String → String
  | [] => ""
  | [x] => x
  | x :: xs => x ++ "." ++ joinDots xs

/-- Modelled from the spec: the public-suffix list entries relevant to this
repository's inputs.  The resolver itself (`tldextract`) is an external
collaborator that the core treats as a black box (spec section 2); the
maintained list's `.lt` section consists of `lt` and `gov.lt`, and `com`
covers the non-`.lt` scenario. -/
def PSL : List String := ["lt", "gov.lt", "com"]

/-- Length (in labels) of the longest public suffix ending the label list. -/
def bestSuffixLen (labels : List String) : Nat :=
  ((List.range (labels.length + 1)).filter
    (fun k => PSL.contains (joinDots (labels.drop (labels.length - k))))).foldl Nat.max 0

/-- Modelled from the spec: the external public-suffix resolver
(`tldextract.extract`), "given a lowercase host string, splits it into
`{subdomain, domain, suffix}` using a maintained public-suffix list",
"returning empty strings when a segment is absent, and empty
`domain`/`suffix` when the string cannot be resolved" (spec section 2). -/
def tldextract_model (host : String) : ExtractResult :=
  let labels := (splitCharList host.data).map (fun l => (⟨l⟩ : String))
  let k := bestSuffixLen labels
  let rem := labels.take (labels.length - k)
  { subdomain := joinDots rem.dropLast
    domain := rem.getLast?.getD ""
    suffix := joinDots (labels.drop (labels.length - k)) }

/-- One line's contribution to the accepted set: the batch driver
(`domain_cleaner.py:30-42`) skips whitespace-only lines, classifies the rest,
and keeps `domain.lower()` for truthy (non-empty) accepted domains.  A line
on which `process_domain` raises contributes nothing here; the uncaught
exception aborts the real run, see `clean_domains_run` for the faithful
run-level fold and the bridge lemma `clean_domains_run_ok`. -/
def acceptedDomain (extractFn : String → ExtractResult) (line : String) : Option String :=
  if pyStrip line = "" then none
  else
    match process_domain extractFn (some line) with
    | Except.ok (some d, _) => if d = "" then none else some (pyLower d)
    | Except.ok (none, _) => none
    | Except.error _ => none

/-- The accumulated `cleaned` set of `clean_domains` (`domain_cleaner.py:18-42`),
built by folding the per-line insertion over the input lines. -/
def clean_domains_set (extractFn : String → ExtractResult) (lines : List String) :
    Finset String :=
  lines.foldl
    (fun acc line =>
      if pyStrip line = "" then acc
      else
        match process_domain extractFn (some line) with
        | Except.ok (some d, _) => if d = "" then acc else insert (pyLower d) acc
        | Except.ok (none, _) => acc
        | Except.error _ => acc)
    ∅

/-- The driver loop of `clean_domains` with the exception path made explicit:
a line on which `process_domain` raises aborts the run with that error (no
output is produced), exactly as the uncaught Python exception would. -/
def clean_domains_run (extractFn : String → ExtractResult) :
    List String → Finset String → Except String (Finset String)
  | [], acc => Except.ok acc
  | line :: rest, acc =>
    if pyStrip line = "" then clean_domains_run extractFn rest acc
    else
      match process_domain extractFn (some line) with
      | Except.error e => Except.error e
      | Except.ok (some d, _) =>
        clean_domains_run extractFn rest (if d = "" then acc else insert (pyLower d) acc)
      | Except.ok (none, _) => clean_domains_run extractFn rest acc

/-- The primary output of `clean_domains` (`domain_cleaner.py:46-48`):
`sorted(cleaned)`, one domain per line. -/
def output_lines (extractFn : String → ExtractResult) (lines : List String) : List String :=
  (clean_domains_set extractFn lines).sort (· ≤ ·)

/-- The `excluded_domains` set of `remove_domains.py:31-36`: trimmed
non-empty blocklist lines. -/
def excluded_set (removees : List String) : Finset String :=
  removees.foldl
    (fun s line => if pyStrip line = "" then s else insert (pyStrip line) s) ∅

/-- `remove_domains` of `remove_domains.py:16-55` as a pure function over the
two line lists: build the set of trimmed non-empty blocklist lines, then keep
each trimmed non-empty master line not in that set, in order. -/
def remove_domains (master removees : List String) : List String :=
  master.foldl
    (fun acc line =>
      if pyStrip line ≠ "" ∧ pyStrip line ∉ excluded_set removees then acc ++ [pyStrip line]
      else acc)
    []

/-! Helper lemmas about the validators. -/

theorem lengthCheck_cases (ls : List (List Char)) :
    lengthCheck ls = (true, none) ∨
    lengthCheck ls = (false, some "single character label") ∨
    lengthCheck ls = (false, some "label exceeds 63 characters") := by
  induction ls with
  | nil => left; rfl
  | cons l rest ih =>
    by_cases h1 : l.length == 1
    · right; left; simp [lengthCheck, h1]
    · by_cases h2 : l.length > 63
      · right; right; simp [lengthCheck, h1, h2]
      · simpa [lengthCheck, h1, h2] using ih

theorem hyphenCheck_cases (ls : List (List Char)) :
    hyphenCheck ls = (true, none) ∨
    hyphenCheck ls = (false, some "hyphen at start of label") ∨
    hyphenCheck ls = (false, some "hyphen at end of label") ∨
    hyphenCheck ls = (false, some "consecutive hyphens") := by
  induction ls with
  | nil => left; rfl
  | cons l rest ih =>
    by_cases h1 : startsWithHyphen l
    · right; left; simp [hyphenCheck, h1]
    · by_cases h2 : startsWithHyphen l.reverse
      · right; right; left; simp [hyphenCheck, h1, h2]
      · by_cases h3 : hasConsecHyphens l
        · right; right; right; simp [hyphenCheck, h1, h2, h3]
        · simpa [hyphenCheck, h1, h2, h3] using ih

/-- The reasons the two validators can produce. -/
def VALIDATOR_REASONS : List String :=
  ["single character label", "label exceeds 63 characters",
   "hyphen at start of label", "hyphen at end of label", "consecutive hyphens"]

theorem validateCandidate_cases (d : String) :
    validateCandidate d = (some d, none) ∨
    ∃ r, validateCandidate d = (none, some r) ∧ r ∈ VALIDATOR_REASONS := by
  unfold validateCandidate is_valid_domain_length is_valid_hyphen_rules
  rcases lengthCheck_cases (splitLabels d) with h | h | h <;> rw [h]
  · rcases hyphenCheck_cases (splitLabels d) with h2 | h2 | h2 | h2 <;> rw [h2]
    · left; rfl
    all_goals (right; exact ⟨_, rfl, by decide⟩)
  all_goals (right; exact ⟨_, rfl, by decide⟩)

theorem validateCandidate_accept_iff (d : String) :
    validateCandidate d = (some d, none) ↔
      (is_valid_domain_length d).1 = true ∧ (is_valid_hyphen_rules d).1 = true := by
  unfold validateCandidate
  rcases h1 : is_valid_domain_length d with ⟨b1, r1⟩
  rcases h2 : is_valid_hyphen_rules d with ⟨b2, r2⟩
  cases b1 <;> cases b2 <;> simp

theorem validateCandidate_fst (d x : String) (r : Option String)
    (h : validateCandidate d = (some x, r)) :
    x = d ∧ r = none ∧
      (is_valid_domain_length d).1 = true ∧ (is_valid_hyphen_rules d).1 = true := by
  rcases validateCandidate_cases d with hc | ⟨r', hc, _⟩ <;> rw [hc] at h
  · obtain ⟨h1, h2⟩ := Prod.mk.injEq .. ▸ h
    refine ⟨(Option.some.injEq .. ▸ h1).symm, h2.symm, ?_⟩
    exact (validateCandidate_accept_iff d).mp hc
  · exact absurd h (by simp)

/-! Helper lemmas about ASCII lowercasing: `Char.toLower` fixes `'.'` and
`'-'` and never produces them from another character. -/

theorem toLower_ne_of_upper (c : Char) (h1 : 65 ≤ c.toNat) (h2 : c.toNat ≤ 90) :
    Char.toLower c ≠ '.' ∧ Char.toLower c ≠ '-' := by
  have hval : Char.toLower c = Char.ofNat (c.toNat + 32) := by
    unfold Char.toLower
    rw [if_pos ⟨h1, h2⟩]
  rw [hval]
  generalize hk : c.toNat = k at h1 h2 ⊢
  interval_cases k <;> exact ⟨by decide, by decide⟩

theorem toLower_eq_dot (c : Char) : Char.toLower c = '.' ↔ c = '.' := by
  by_cases hn : 65 ≤ c.toNat ∧ c.toNat ≤ 90
  · have hne := toLower_ne_of_upper c hn.1 hn.2
    have hcne : c ≠ '.' := by
      rintro rfl
      simp at hn
    simp [hne.1, hcne]
  · have hval : Char.toLower c = c := by
      unfold Char.toLower
      rw [if_neg hn]
    rw [hval]

theorem toLower_eq_hyphen (c : Char) : Char.toLower c = '-' ↔ c = '-' := by
  by_cases hn : 65 ≤ c.toNat ∧ c.toNat ≤ 90
  · have hne := toLower_ne_of_upper c hn.1 hn.2
    have hcne : c ≠ '-' := by
      rintro rfl
      simp at hn
    simp [hne.2, hcne]
  · have hval : Char.toLower c = c := by
      unfold Char.toLower
      rw [if_neg hn]
    rw [hval]

theorem toLower_beq_hyphen (c : Char) : (Char.toLower c == '-') = (c == '-') := by
  by_cases h : c = '-'
  · subst h; rfl
  · have := (not_iff_not.mpr (toLower_eq_hyphen c)).mpr h
    simp [h, this]

/-! Helper lemmas: splitting at dots commutes with ASCII lowercasing, and the
label checks are invariant under it. -/

theorem splitCharList_ne_nil (l : List Char) : splitCharList l ≠ [] := by
  cases l with
  | nil => simp [splitCharList]
  | cons c rest =>
    by_cases h : c = '.'
    · simp [splitCharList, h]
    · simp only [splitCharList, if_neg h]
      rcases hr : splitCharList rest with _ | ⟨m, ms⟩ <;> simp

theorem splitCharList_map_toLower (l : List Char) :
    splitCharList (l.map Char.toLower) = (splitCharList l).map (List.map Char.toLower) := by
  induction l with
  | nil => rfl
  | cons c rest ih =>
    by_cases h : c = '.'
    · subst h
      simp only [List.map_cons]
      rw [show Char.toLower '.' = '.' from rfl]
      simp only [splitCharList, if_pos rfl]
      rw [ih]
      rfl
    · have h' : Char.toLower c ≠ '.' := fun hc => h ((toLower_eq_dot c).mp hc)
      simp only [List.map_cons, splitCharList, if_neg h, if_neg h']
      rw [ih]
      rcases hr : splitCharList rest with _ | ⟨m, ms⟩
      · exact absurd hr (splitCharList_ne_nil rest)
      · rfl

theorem startsWithHyphen_map_toLower (l : List Char) :
    startsWithHyphen (l.map Char.toLower) = startsWithHyphen l := by
  cases l with
  | nil => rfl
  | cons c rest => simp [startsWithHyphen, toLower_beq_hyphen]

theorem hasConsecHyphens_map_toLower (l : List Char) :
    hasConsecHyphens (l.map Char.toLower) = hasConsecHyphens l := by
  induction l with
  | nil => rfl
  | cons a tail ih =>
    cases tail with
    | nil => rfl
    | cons b rest =>
      simp only [List.map_cons] at ih ⊢
      simp only [hasConsecHyphens, toLower_beq_hyphen, ih]

theorem lengthCheck_map_toLower (ls : List (List Char)) :
    lengthCheck (ls.map (List.map Char.toLower)) = lengthCheck ls := by
  induction ls with
  | nil => rfl
  | cons l rest ih => simp only [List.map_cons, lengthCheck, List.length_map, ih]

theorem hyphenCheck_map_toLower (ls : List (List Char)) :
    hyphenCheck (ls.map (List.map Char.toLower)) = hyphenCheck ls := by
  induction ls with
  | nil => rfl
  | cons l rest ih =>
    simp only [List.map_cons, hyphenCheck, startsWithHyphen_map_toLower,
      ← List.map_reverse, hasConsecHyphens_map_toLower, ih]

theorem is_valid_domain_length_pyLower (d : String) :
    is_valid_domain_length (pyLower d) = is_valid_domain_length d := by
  unfold is_valid_domain_length splitLabels pyLower
  rw [show (String.mk (d.data.map Char.toLower)).data = d.data.map Char.toLower from rfl,
    splitCharList_map_toLower, lengthCheck_map_toLower]

theorem is_valid_hyphen_rules_pyLower (d : String) :
    is_valid_hyphen_rules (pyLower d) = is_valid_hyphen_rules d := by
  unfold is_valid_hyphen_rules splitLabels pyLower
  rw [show (String.mk (d.data.map Char.toLower)).data = d.data.map Char.toLower from rfl,
    splitCharList_map_toLower, hyphenCheck_map_toLower]

/-! Helper lemmas about string append and lowercasing. -/

theorem strData_append (a b : String) : (a ++ b).data = a.data ++ b.data := by
  cases a
  cases b
  rfl

theorem strAppend_assoc (a b c : String) : a ++ b ++ c = a ++ (b ++ c) := by
  apply String.ext
  simp only [strData_append, List.append_assoc]

theorem pyLower_append (a b : String) : pyLower (a ++ b) = pyLower a ++ pyLower b := by
  apply String.ext
  simp only [pyLower, strData_append, List.map_append]

theorem pyLower_dotlt : pyLower ".lt" = ".lt" := by decide

theorem ends_lt_pyLower (d : String) (h : ∃ t, d = t ++ ".lt") :
    ∃ t, pyLower d = t ++ ".lt" := by
  obtain ⟨t, rfl⟩ := h
  exact ⟨pyLower t, by rw [pyLower_append, pyLower_dotlt]⟩

/-- If the resolved suffix is one of the branch-selected values, appending it
after a dot always yields a `.lt` tail. -/
theorem suffix_dot_ends_lt (s : String)
    (h : s ∈ GOV_SUFFIXES ∨ s = "lt") : ∃ p, "." ++ s = p ++ ".lt" := by
  rcases h with h | rfl
  · simp only [GOV_SUFFIXES, List.mem_cons, List.mem_singleton] at h
    rcases h with rfl | rfl | rfl | rfl | h
    · exact ⟨".lrv", by decide⟩
    · exact ⟨".edu", by decide⟩
    · exact ⟨".mil", by decide⟩
    · exact ⟨".gov", by decide⟩
    · cases h
  · exact ⟨"", by decide⟩

theorem candidate_ends_lt (x s : String) (h : s ∈ GOV_SUFFIXES ∨ s = "lt") :
    ∃ t, x ++ "." ++ s = t ++ ".lt" := by
  obtain ⟨p, hp⟩ := suffix_dot_ends_lt s h
  exact ⟨x ++ p, by rw [strAppend_assoc, hp, ← strAppend_assoc]⟩

/-! Helper lemmas about the batch driver's accumulation. -/

theorem clean_domains_aux (extractFn : String → ExtractResult) (lines : List String)
    (acc : Finset String) :
    lines.foldl
      (fun acc line =>
        if pyStrip line = "" then acc
        else
          match process_domain extractFn (some line) with
          | Except.ok (some d, _) => if d = "" then acc else insert (pyLower d) acc
          | Except.ok (none, _) => acc
          | Except.error _ => acc)
      acc = acc ∪ (lines.filterMap (acceptedDomain extractFn)).toFinset := by
  induction lines generalizing acc with
  | nil => simp
  | cons line rest ih =>
    simp only [List.foldl_cons, List.filterMap_cons]
    by_cases h1 : pyStrip line = ""
    · have ha : acceptedDomain extractFn line = none := by
        simp [acceptedDomain, h1]
      simp only [if_pos h1, ha, ih]
    · rcases hp : process_domain extractFn (some line) with e | ⟨od, r⟩
      · have ha : acceptedDomain extractFn line = none := by
          simp [acceptedDomain, h1, hp]
        simp only [if_neg h1, ha, ih]
      · cases od with
        | none =>
          have ha : acceptedDomain extractFn line = none := by
            simp [acceptedDomain, h1, hp]
          simp only [if_neg h1, ha, ih]
        | some d =>
          by_cases h2 : d = ""
          · have ha : acceptedDomain extractFn line = none := by
              simp [acceptedDomain, h1, hp, h2]
            simp only [if_neg h1, if_pos h2, ha, ih]
          · have ha : acceptedDomain extractFn line = some (pyLower d) := by
              simp [acceptedDomain, h1, hp, h2]
            simp only [if_neg h1, if_neg h2, ha, ih, List.toFinset_cons,
              Finset.union_insert, Finset.insert_union]

/-- When no line raises, the faithful run-level fold completes and returns
exactly the accumulated set. -/
theorem clean_domains_run_ok (extractFn : String → ExtractResult) (lines : List String)
    (acc : Finset String)
    (h : ∀ line ∈ lines, ∀ e, process_domain extractFn (some line) ≠ Except.error e) :
    clean_domains_run extractFn lines acc =
      Except.ok (lines.foldl
        (fun acc line =>
          if pyStrip line = "" then acc
          else
            match process_domain extractFn (some line) with
            | Except.ok (some d, _) => if d = "" then acc else insert (pyLower d) acc
            | Except.ok (none, _) => acc
            | Except.error _ => acc)
        acc) := by
  induction lines generalizing acc with
  | nil => rfl
  | cons line rest ih =>
    have hrest : ∀ l ∈ rest, ∀ e, process_domain extractFn (some l) ≠ Except.error e :=
      fun l hl => h l (List.mem_cons_of_mem line hl)
    simp only [clean_domains_run, List.foldl_cons]
    by_cases h1 : pyStrip line = ""
    · simp only [if_pos h1, ih _ hrest]
    · rcases hp : process_domain extractFn (some line) with e | ⟨od, r⟩
      · exact absurd hp (h line (List.mem_cons_self line rest) e)
      · cases od with
        | none => simp only [if_neg h1, ih _ hrest]
        | some d => simp only [if_neg h1, ih _ hrest]

theorem clean_domains_set_eq (extractFn : String → ExtractResult) (lines : List String) :
    clean_domains_set extractFn lines = (lines.filterMap (acceptedDomain extractFn)).toFinset := by
  unfold clean_domains_set
  rw [clean_domains_aux]
  exact Finset.empty_union _

/-! Helper lemmas about the remove-domains utility. -/

theorem remove_excluded_aux (removees : List String) (s : Finset String) :
    removees.foldl
      (fun s line => if pyStrip line = "" then s else insert (pyStrip line) s) s
    = s ∪ ((removees.map pyStrip).filter (fun d => !(d == ""))).toFinset := by
  induction removees generalizing s with
  | nil => simp
  | cons line rest ih =>
    simp only [List.foldl_cons, List.map_cons, List.filter_cons]
    by_cases h : pyStrip line = ""
    · have hb : (pyStrip line == "") = true := by
        simp [h]
      rw [if_pos h, ih, hb]
      simp
    · have hb : (pyStrip line == "") = false := by
        simp [h]
      rw [if_neg h, ih, hb]
      simp [Finset.union_insert, Finset.insert_union]

theorem remove_master_aux (E : Finset String) (master : List String) (acc : List String) :
    master.foldl
      (fun acc line =>
        if pyStrip line ≠ "" ∧ pyStrip line ∉ E then acc ++ [pyStrip line] else acc) acc
    = acc ++ (master.map pyStrip).filter (fun d => decide (d ≠ "" ∧ d ∉ E)) := by
  induction master generalizing acc with
  | nil => simp
  | cons line rest ih =>
    simp only [List.foldl_cons, List.map_cons, List.filter_cons]
    by_cases h : pyStrip line ≠ "" ∧ pyStrip line ∉ E
    · rw [if_pos h, ih, if_pos (decide_eq_true h)]
      simp
    · rw [if_neg h, ih, if_neg (fun hc => h (of_decide_eq_true hc))]

theorem filter_pred_eq (L : List String) (d : String) :
    decide (d ≠ "" ∧ d ∉ L.toFinset) = (!(d == "") && !(L.contains d)) := by
  by_cases h1 : d = "" <;> by_cases h2 : d ∈ L <;>
    simp [h1, h2, List.mem_toFinset, List.contains]

/-- C9: the remove-domains utility outputs exactly the trimmed, non-empty
lines of the master list that are not verbatim members of the trimmed,
non-empty blocklist lines, preserving the master list's original order, with
no re-validation or normalization of either list. -/
theorem remove_domains_exact (master removees : List String) :
    remove_domains master removees =
      (master.map pyStrip).filter
        (fun d => !(d == "") &&
          !(((removees.map pyStrip).filter (fun e => !(e == ""))).contains d)) := by
  have hE : excluded_set removees
      = ((removees.map pyStrip).filter (fun e => !(e == ""))).toFinset := by
    unfold excluded_set
    rw [remove_excluded_aux]
    exact Finset.empty_union _
  unfold remove_domains
  simp only [hE]
  rw [remove_master_aux, List.nil_append]
  exact List.filter_congr (fun d _ => filter_pred_eq _ d)

/-- The reasons `classify` can produce. -/
def CLASSIFY_REASONS : List String :=
  ["invalid domain/suffix", "non-govt subdomain", "non-.lt domain"] ++ VALIDATOR_REASONS

theorem classify_cases (ext : ExtractResult) :
    (∃ d, classify ext = (some d, none)) ∨
    (∃ r, classify ext = (none, some r) ∧ r ∈ CLASSIFY_REASONS) := by
  unfold classify
  by_cases h1 : ext.domain = "" ∨ ext.suffix = ""
  · rw [if_pos h1]
    right
    exact ⟨_, rfl, by decide⟩
  · rw [if_neg h1]
    by_cases h2 : ext.suffix ∈ GOV_SUFFIXES ∨ (ext.suffix = "lt" ∧ ext.domain ∈ GOV_DOMAINS)
    · rw [if_pos h2]
      rcases validateCandidate_cases
          (if ext.subdomain ≠ "" then ext.subdomain ++ "." ++ (ext.domain ++ "." ++ ext.suffix)
           else ext.domain ++ "." ++ ext.suffix) with hv | ⟨r, hv, hr⟩
      · left
        exact ⟨_, hv⟩
      · right
        exact ⟨r, hv, List.mem_append.mpr (Or.inr hr)⟩
    · rw [if_neg h2]
      by_cases h3 : ext.suffix = "lt"
      · rw [if_pos h3]
        by_cases h4 : ext.subdomain ≠ ""
        · rw [if_pos h4]
          right
          exact ⟨_, rfl, by decide⟩
        · rw [if_neg h4]
          rcases validateCandidate_cases (ext.domain ++ "." ++ ext.suffix) with hv | ⟨r, hv, hr⟩
          · left
            exact ⟨_, hv⟩
          · right
            exact ⟨r, hv, List.mem_append.mpr (Or.inr hr)⟩
      · rw [if_neg h3]
        right
        exact ⟨_, rfl, by decide⟩

theorem classify_reasons_sub : ∀ r ∈ CLASSIFY_REASONS, r ∈ REASONS := by decide

theorem netlocSplit_error (l : List Char) (e : String)
    (h : netlocSplit l = Except.error e) : e = "Invalid IPv6 URL" := by
  unfold netlocSplit at h
  split at h
  · split at h
    · exact (Except.error.inj h).symm
    · cases h
  · cases h

theorem urlparseNetloc_error (s : String) (e : String)
    (h : urlparseNetloc s = Except.error e) : e = "Invalid IPv6 URL" :=
  netlocSplit_error _ e h

theorem urlStep_error (s : String) (e : String)
    (h : urlStep s = Except.error e) : e = "Invalid IPv6 URL" := by
  unfold urlStep at h
  split at h
  · rcases hn : urlparseNetloc s with e' | netloc <;> rw [hn] at h
    · exact (Except.error.inj h) ▸ urlparseNetloc_error s e' hn
    · cases h
  · cases h

theorem normalize_host_error (s : String) (e : String)
    (h : normalize_host s = Except.error e) : e = "Invalid IPv6 URL" := by
  unfold normalize_host at h
  rcases hu : urlStep (stripTrailingDots s) with e' | t <;> rw [hu] at h
  · exact (Except.error.inj h) ▸ urlStep_error _ e' hu
  · cases h

theorem process_domain_cases :
    ∀ extractFn raw,
      (∃ d, process_domain extractFn raw = Except.ok (some d, none)) ∨
      (∃ r, process_domain extractFn raw = Except.ok (none, some r) ∧ r ∈ REASONS) ∨
      process_domain extractFn raw = Except.error "Invalid IPv6 URL" := by
  intro f raw
  match raw with
  | none =>
    right
    left
    exact ⟨"empty", rfl, by decide⟩
  | some raw =>
    by_cases h1 : pyStrip raw = ""
    · right
      left
      refine ⟨"empty line", ?_, by decide⟩
      simp only [process_domain]
      rw [if_pos h1]
    · rcases hn : normalize_host (pyStrip raw) with e | host
      · right
        right
        have he := normalize_host_error _ e hn
        simp only [process_domain]
        rw [if_neg h1, hn, he]
      · have hred : process_domain f (some raw) =
            if isIpQuad host = true then Except.ok (none, some "ip address")
            else if (!isValidChars host) = true then Except.ok (none, some "invalid characters")
            else Except.ok (classify (f (pyLower host))) := by
          simp only [process_domain]
          rw [if_neg h1, hn]
        by_cases h2 : isIpQuad host = true
        · right
          left
          rw [hred, if_pos h2]
          exact ⟨_, rfl, by decide⟩
        · by_cases h3 : (!isValidChars host) = true
          · right
            left
            rw [hred, if_neg h2, if_pos h3]
            exact ⟨_, rfl, by decide⟩
          · rcases classify_cases (f (pyLower host)) with ⟨d, hd⟩ | ⟨r, hr, hmem⟩
            · left
              exact ⟨d, by rw [hred, if_neg h2, if_neg h3, hd]⟩
            · right
              left
              exact ⟨r, by rw [hred, if_neg h2, if_neg h3, hr], classify_reasons_sub r hmem⟩

/-- C4: the claim states that `process_domain` is total over every input and
never raises, returning one of (domain, no-reason) or (no-domain, reason)
with the reason in the twelve-string vocabulary — and the spec (section 7)
indeed intends that no exception cross the classifier boundary.  The code
violates it: for the ASCII input `http://[abc` the scheme guard matches and
`urlparse` at `domain_cleaner.py:112` raises an uncaught
`ValueError("Invalid IPv6 URL")` (unbalanced bracket in the netloc), so
`process_domain` raises instead of returning.  Proved here: the exception at
the failing input, the None-sentinel behavior, and that every non-raising
outcome is an accepted domain or a vocabulary rejection. -/
theorem process_domain_total_vocab :
    (∀ extractFn, process_domain extractFn (some "http://[abc") =
      Except.error "Invalid IPv6 URL") ∧
    (∀ extractFn, process_domain extractFn none = Except.ok (none, some "empty")) ∧
    (∀ extractFn raw,
      (∃ d, process_domain extractFn raw = Except.ok (some d, none)) ∨
      (∃ r, process_domain extractFn raw = Except.ok (none, some r) ∧ r ∈ REASONS) ∨
      process_domain extractFn raw = Except.error "Invalid IPv6 URL") :=
  ⟨fun _ => rfl, fun _ => rfl, process_domain_cases⟩

/-- Once the early screens pass — the line is not blank and the URL step
succeeds with a host passing the IP and character screens — `process_domain`
is the policy classifier applied to the resolver's output for the
lowercased host. -/
theorem process_domain_eq_classify (extractFn : String → ExtractResult) (raw host : String)
    (h1 : pyStrip raw ≠ "")
    (hn : normalize_host (pyStrip raw) = Except.ok host)
    (h2 : isIpQuad host = false)
    (h3 : isValidChars host = true) :
    process_domain extractFn (some raw) = Except.ok (classify (extractFn (pyLower host))) := by
  simp only [process_domain]
  rw [if_neg h1, hn]
  simp only [h2, h3, Bool.false_eq_true, if_false, Bool.not_true]

theorem suffix_ne_empty_of_gov (s : String) (h : s ∈ GOV_SUFFIXES ∨ s = "lt") : s ≠ "" := by
  rcases h with h | rfl
  · simp only [GOV_SUFFIXES, List.mem_cons, List.mem_singleton] at h
    rcases h with rfl | rfl | rfl | rfl | h
    · decide
    · decide
    · decide
    · decide
    · cases h
  · decide

/-- C1: for every raw input line (passing the early screens: non-blank, URL
step succeeds, host passes the IP and character screens) whose resolved
suffix is one of the special government suffixes, or whose suffix is `lt`
with domain one of the government second-level names, `process_domain`
preserves a non-empty subdomain by forming the candidate
`subdomain.domain.suffix` (otherwise `domain.suffix`), and accepts that
candidate exactly when it passes both label validators; in particular
`vilnius.LRV.lt.` is accepted as `vilnius.lrv.lt`. -/
theorem gov_branch_preserves_subdomain (extractFn : String → ExtractResult)
    (raw host : String)
    (h1 : pyStrip raw ≠ "")
    (hn : normalize_host (pyStrip raw) = Except.ok host)
    (h2 : isIpQuad host = false)
    (h3 : isValidChars host = true)
    (hd : (extractFn (pyLower host)).domain ≠ "")
    (hgov : (extractFn (pyLower host)).suffix ∈ GOV_SUFFIXES ∨
      ((extractFn (pyLower host)).suffix = "lt" ∧
        (extractFn (pyLower host)).domain ∈ GOV_DOMAINS)) :
    process_domain extractFn (some raw) =
      Except.ok (validateCandidate
        (if (extractFn (pyLower host)).subdomain ≠ "" then
          (extractFn (pyLower host)).subdomain ++ "." ++
            ((extractFn (pyLower host)).domain ++ "." ++ (extractFn (pyLower host)).suffix)
         else (extractFn (pyLower host)).domain ++ "." ++ (extractFn (pyLower host)).suffix)) ∧
    (∀ c : String, validateCandidate c = (some c, none) ↔
      (is_valid_domain_length c).1 = true ∧ (is_valid_hyphen_rules c).1 = true) ∧
    process_domain tldextract_model (some "vilnius.LRV.lt.") =
      Except.ok (some "vilnius.lrv.lt", none) := by
  refine ⟨?_, validateCandidate_accept_iff, by decide⟩
  rw [process_domain_eq_classify extractFn raw host h1 hn h2 h3]
  unfold classify
  have hs : (extractFn (pyLower host)).suffix ≠ "" :=
    suffix_ne_empty_of_gov _ (hgov.imp id And.left)
  rw [if_neg (fun hc => hc.elim hd hs), if_pos hgov]

theorem gov_branch_preserves_subdomain_witness :
    process_domain tldextract_model (some "vilnius.LRV.lt.") =
      Except.ok (validateCandidate
        (if (tldextract_model (pyLower "vilnius.LRV.lt")).subdomain ≠ "" then
          (tldextract_model (pyLower "vilnius.LRV.lt")).subdomain ++ "." ++
            ((tldextract_model (pyLower "vilnius.LRV.lt")).domain ++ "." ++
              (tldextract_model (pyLower "vilnius.LRV.lt")).suffix)
         else (tldextract_model (pyLower "vilnius.LRV.lt")).domain ++ "." ++
            (tldextract_model (pyLower "vilnius.LRV.lt")).suffix)) ∧
    (∀ c : String, validateCandidate c = (some c, none) ↔
      (is_valid_domain_length c).1 = true ∧ (is_valid_hyphen_rules c).1 = true) ∧
    process_domain tldextract_model (some "vilnius.LRV.lt.") =
      Except.ok (some "vilnius.lrv.lt", none) :=
  gov_branch_preserves_subdomain tldextract_model "vilnius.LRV.lt." "vilnius.LRV.lt"
    (by decide) (by decide) (by decide) (by decide) (by decide) (by decide)

theorem validateCandidate_ne_reason (d : String) (r : String)
    (hr : r ∉ VALIDATOR_REASONS) : validateCandidate d ≠ (none, some r) := by
  rcases validateCandidate_cases d with hv | ⟨r', hv, hr'⟩ <;> rw [hv]
  · simp
  · intro hc
    obtain ⟨-, h2⟩ := Prod.mk.injEq .. ▸ hc
    exact hr (Option.some.inj h2 ▸ hr')

/-- C2: for every input (passing the early screens) whose resolved suffix is
`lt` and which is not government-qualified, `process_domain` returns the
rejection reason `non-govt subdomain` if and only if the resolved subdomain
is non-empty; with no subdomain the candidate `domain.suffix` is accepted
when it passes both validators.  In particular `shop.example.lt` is rejected
with reason `non-govt subdomain`. -/
theorem commercial_branch_rejects_subdomain (extractFn : String → ExtractResult)
    (raw host : String)
    (h1 : pyStrip raw ≠ "")
    (hn : normalize_host (pyStrip raw) = Except.ok host)
    (h2 : isIpQuad host = false)
    (h3 : isValidChars host = true)
    (hsuf : (extractFn (pyLower host)).suffix = "lt")
    (hd : (extractFn (pyLower host)).domain ≠ "")
    (hng : (extractFn (pyLower host)).domain ∉ GOV_DOMAINS) :
    (process_domain extractFn (some raw) = Except.ok (none, some "non-govt subdomain") ↔
      (extractFn (pyLower host)).subdomain ≠ "") ∧
    ((extractFn (pyLower host)).subdomain = "" →
      process_domain extractFn (some raw) =
        Except.ok (validateCandidate
          ((extractFn (pyLower host)).domain ++ "." ++ (extractFn (pyLower host)).suffix))) ∧
    process_domain tldextract_model (some "shop.example.lt") =
      Except.ok (none, some "non-govt subdomain") := by
  have hcl : process_domain extractFn (some raw) =
      Except.ok (classify (extractFn (pyLower host))) :=
    process_domain_eq_classify extractFn raw host h1 hn h2 h3
  have hs : (extractFn (pyLower host)).suffix ≠ "" := by
    rw [hsuf]
    decide
  have hngov : ¬((extractFn (pyLower host)).suffix ∈ GOV_SUFFIXES ∨
      ((extractFn (pyLower host)).suffix = "lt" ∧
        (extractFn (pyLower host)).domain ∈ GOV_DOMAINS)) := by
    rintro (h | ⟨-, h⟩)
    · rw [hsuf] at h
      exact absurd h (by decide)
    · exact hng h
  have hbr : process_domain extractFn (some raw) =
      Except.ok (if (extractFn (pyLower host)).subdomain ≠ "" then
        (none, some "non-govt subdomain")
      else validateCandidate
        ((extractFn (pyLower host)).domain ++ "." ++ (extractFn (pyLower host)).suffix)) := by
    rw [hcl]
    unfold classify
    rw [if_neg (fun hc => hc.elim hd hs), if_neg hngov, if_pos hsuf]
  refine ⟨?_, ?_, by decide⟩
  · by_cases hsub : (extractFn (pyLower host)).subdomain ≠ ""
    · rw [hbr, if_pos hsub]
      simp [hsub]
    · rw [hbr, if_neg hsub]
      constructor
      · intro hc
        exact absurd (Except.ok.inj hc)
          (validateCandidate_ne_reason _ _ (by decide))
      · intro hc
        exact absurd hc hsub
  · intro hsub
    rw [hbr, if_neg (by simp [hsub])]

theorem commercial_branch_rejects_subdomain_witness :
    (process_domain tldextract_model (some "shop.example.lt") =
        Except.ok (none, some "non-govt subdomain") ↔
      (tldextract_model (pyLower "shop.example.lt")).subdomain ≠ "") ∧
    ((tldextract_model (pyLower "shop.example.lt")).subdomain = "" →
      process_domain tldextract_model (some "shop.example.lt") =
        Except.ok (validateCandidate
          ((tldextract_model (pyLower "shop.example.lt")).domain ++ "." ++
            (tldextract_model (pyLower "shop.example.lt")).suffix))) ∧
    process_domain tldextract_model (some "shop.example.lt") =
      Except.ok (none, some "non-govt subdomain") :=
  commercial_branch_rejects_subdomain tldextract_model "shop.example.lt" "shop.example.lt"
    (by decide) (by decide) (by decide) (by decide) (by decide) (by decide) (by decide)

theorem classify_accepted (ext : ExtractResult) (d : String)
    (h : classify ext = (some d, none)) :
    (is_valid_domain_length d).1 = true ∧ (is_valid_hyphen_rules d).1 = true ∧
      ∃ t, d = t ++ ".lt" := by
  unfold classify at h
  by_cases h1 : ext.domain = "" ∨ ext.suffix = ""
  · rw [if_pos h1] at h
    exact absurd h (by simp)
  · rw [if_neg h1] at h
    by_cases h2 : ext.suffix ∈ GOV_SUFFIXES ∨ (ext.suffix = "lt" ∧ ext.domain ∈ GOV_DOMAINS)
    · rw [if_pos h2] at h
      obtain ⟨rfl, -, hl, hh⟩ := validateCandidate_fst _ _ _ h
      refine ⟨hl, hh, ?_⟩
      have hsuf : ext.suffix ∈ GOV_SUFFIXES ∨ ext.suffix = "lt" := h2.imp id And.left
      by_cases hsub : ext.subdomain ≠ ""
      · rw [if_pos hsub]
        obtain ⟨t0, ht0⟩ := candidate_ends_lt ext.domain ext.suffix hsuf
        refine ⟨ext.subdomain ++ "." ++ t0, ?_⟩
        rw [ht0, ← strAppend_assoc]
      · rw [if_neg hsub]
        exact candidate_ends_lt ext.domain ext.suffix hsuf
    · rw [if_neg h2] at h
      by_cases h3 : ext.suffix = "lt"
      · rw [if_pos h3] at h
        by_cases h4 : ext.subdomain ≠ ""
        · rw [if_pos h4] at h
          exact absurd h (by simp)
        · rw [if_neg h4] at h
          obtain ⟨rfl, -, hl, hh⟩ := validateCandidate_fst _ _ _ h
          exact ⟨hl, hh, candidate_ends_lt _ _ (Or.inr h3)⟩
      · rw [if_neg h3] at h
        exact absurd h (by simp)

theorem process_accepted_validated (extractFn : String → ExtractResult)
    (raw : Option String) (d : String)
    (h : process_domain extractFn raw = Except.ok (some d, none)) :
    (is_valid_domain_length d).1 = true ∧ (is_valid_hyphen_rules d).1 = true ∧
      ∃ t, d = t ++ ".lt" := by
  match raw with
  | none => exact absurd h (by simp [process_domain])
  | some raw =>
    by_cases h1 : pyStrip raw = ""
    · rw [show process_domain extractFn (some raw) = Except.ok (none, some "empty line") by
        simp only [process_domain]; rw [if_pos h1]] at h
      exact absurd h (by simp)
    · rcases hn : normalize_host (pyStrip raw) with e | host
      · rw [show process_domain extractFn (some raw) = Except.error e by
          simp only [process_domain]; rw [if_neg h1, hn]] at h
        cases h
      · have hred : process_domain extractFn (some raw) =
            if isIpQuad host = true then Except.ok (none, some "ip address")
            else if (!isValidChars host) = true then Except.ok (none, some "invalid characters")
            else Except.ok (classify (extractFn (pyLower host))) := by
          simp only [process_domain]
          rw [if_neg h1, hn]
        rw [hred] at h
        by_cases h2 : isIpQuad host = true
        · rw [if_pos h2] at h
          exact absurd h (by simp)
        · rw [if_neg h2] at h
          by_cases h3 : (!isValidChars host) = true
          · rw [if_pos h3] at h
            exact absurd h (by simp)
          · rw [if_neg h3] at h
            exact classify_accepted _ _ (Except.ok.inj h)

theorem mem_clean_domains_accepted (extractFn : String → ExtractResult)
    (lines : List String) (x : String) (hx : x ∈ clean_domains_set extractFn lines) :
    ∃ d line, process_domain extractFn (some line) = Except.ok (some d, none) ∧
      x = pyLower d := by
  rw [clean_domains_set_eq, List.mem_toFinset] at hx
  obtain ⟨line, -, hline⟩ := List.mem_filterMap.mp hx
  unfold acceptedDomain at hline
  by_cases hstrip : pyStrip line = ""
  · rw [if_pos hstrip] at hline
    cases hline
  · rw [if_neg hstrip] at hline
    rcases hp : process_domain extractFn (some line) with e | ⟨od, r⟩
    · rw [hp] at hline
      cases hline
    · rw [hp] at hline
      cases od with
      | none => cases hline
      | some d =>
        by_cases hde : d = ""
        · simp only [if_pos hde] at hline
          cases hline
        · simp only [if_neg hde, Option.some.injEq] at hline
          have hr : r = none := by
            rcases process_domain_cases extractFn (some line) with
              ⟨d', hd'⟩ | ⟨r', hr', -⟩ | herr
            · rw [hp] at hd'
              exact (Prod.mk.injEq .. ▸ Except.ok.inj hd').2
            · rw [hp] at hr'
              exact absurd (Prod.mk.injEq .. ▸ Except.ok.inj hr').1 (by simp)
            · rw [hp] at herr
              cases herr
          subst hr
          exact ⟨d, line, hp, hline.symm⟩

/-- C3: every canonical domain that `process_domain` returns as accepted (and
hence every member of the driver's accumulated result set) satisfies both the
length validator and the hyphen validator and ends in the suffix `.lt`;
inputs resolving to any non-`.lt` suffix are rejected with reason
`non-.lt domain` (in particular `example.com`). -/
theorem accepted_domains_validated :
    (∀ extractFn raw d, process_domain extractFn raw = Except.ok (some d, none) →
      (is_valid_domain_length d).1 = true ∧ (is_valid_hyphen_rules d).1 = true ∧
        ∃ t, d = t ++ ".lt") ∧
    (∀ extractFn lines x, x ∈ clean_domains_set extractFn lines →
      (is_valid_domain_length x).1 = true ∧ (is_valid_hyphen_rules x).1 = true ∧
        ∃ t, x = t ++ ".lt") ∧
    (∀ extractFn raw host, pyStrip raw ≠ "" →
      normalize_host (pyStrip raw) = Except.ok host →
      isIpQuad host = false → isValidChars host = true →
      (extractFn (pyLower host)).domain ≠ "" → (extractFn (pyLower host)).suffix ≠ "" →
      (extractFn (pyLower host)).suffix ∉ GOV_SUFFIXES →
      (extractFn (pyLower host)).suffix ≠ "lt" →
      process_domain extractFn (some raw) = Except.ok (none, some "non-.lt domain")) ∧
    process_domain tldextract_model (some "example.com") =
      Except.ok (none, some "non-.lt domain") := by
  refine ⟨process_accepted_validated, ?_, ?_, by decide⟩
  · intro extractFn lines x hx
    obtain ⟨d, line, hp, rfl⟩ := mem_clean_domains_accepted extractFn lines x hx
    obtain ⟨hl, hh, he⟩ := process_accepted_validated extractFn (some line) d hp
    rw [is_valid_domain_length_pyLower, is_valid_hyphen_rules_pyLower]
    exact ⟨hl, hh, ends_lt_pyLower d he⟩
  · intro extractFn raw host h1 hn h2 h3 hd hs hnotgov hnotlt
    rw [process_domain_eq_classify extractFn raw host h1 hn h2 h3]
    unfold classify
    rw [if_neg (fun hc => hc.elim hd hs)]
    rw [if_neg (by rintro (h | ⟨h, -⟩); exacts [hnotgov h, hnotlt h])]
    rw [if_neg hnotlt]

theorem accepted_domains_validated_witness :
    ((is_valid_domain_length "example.lt").1 = true ∧
      (is_valid_hyphen_rules "example.lt").1 = true ∧
      ∃ t, "example.lt" = t ++ ".lt") ∧
    process_domain tldextract_model (some "example.com") =
      Except.ok (none, some "non-.lt domain") :=
  ⟨accepted_domains_validated.1 tldextract_model (some "example.lt") "example.lt" (by decide),
   accepted_domains_validated.2.2.1 tldextract_model "example.com" "example.com"
     (by decide) (by decide) (by decide) (by decide) (by decide) (by decide) (by decide)
     (by decide)⟩

/-- C5 counterexample: the claim as stated says that for a scheme-matching
string the working string is replaced by the URL's host when that host is
non-empty and kept unchanged otherwise.  At the concrete ASCII input
`http://[abc` the program does neither: `urlparse` raises
`ValueError("Invalid IPv6 URL")`, which propagates out of `process_domain`.
Also, the host component of `http://exam\tple.lt/x` is `example.lt`
(`urlparse` removes the tab), not the verbatim slice between `://` and `/`. -/
theorem normalization_order_counterexample :
    urlStep "http://[abc" = Except.error "Invalid IPv6 URL" ∧
    process_domain tldextract_model (some "http://[abc") =
      Except.error "Invalid IPv6 URL" ∧
    urlparseNetloc "http://exam\tple.lt/x" = Except.ok "example.lt" ∧
    process_domain tldextract_model (some "http://exam\tple.lt/x") =
      Except.ok (some "example.lt", none) :=
  ⟨by decide, by decide, by decide, by decide⟩

/-- C5 (amended): the normalization prefix of `process_domain` acts in this
order: for a string matching a scheme, `urlparse` extracts the host (after
removing ASCII tab/CR/LF) and may raise on an unbalanced-bracket host, the
raise propagating uncaught; when it succeeds, the working string is replaced
by the host only when that host is non-empty (otherwise the string is kept
unchanged), and afterwards a leading `www.` prefix is stripped
case-insensitively (4 characters); consequently `https://www.LRV.lt/page` is
accepted as `lrv.lt`. -/
theorem normalization_order :
    (∀ s h, matchesScheme s = true → urlparseNetloc s = Except.ok h → h ≠ "" →
      urlStep s = Except.ok h) ∧
    (∀ s, matchesScheme s = true → urlparseNetloc s = Except.ok "" →
      urlStep s = Except.ok s) ∧
    (∀ s e, matchesScheme s = true → urlparseNetloc s = Except.error e →
      urlStep s = Except.error e) ∧
    (∀ s, matchesScheme s = false → urlStep s = Except.ok s) ∧
    (∀ s, pyStartsWith (pyLower s) "www." = true → wwwStep s = strDrop s 4) ∧
    (∀ s, pyStartsWith (pyLower s) "www." = false → wwwStep s = s) ∧
    (∀ s h, urlStep (stripTrailingDots s) = Except.ok h →
      normalize_host s = Except.ok (wwwStep h)) ∧
    process_domain tldextract_model (some "https://www.LRV.lt/page") =
      Except.ok (some "lrv.lt", none) := by
  refine ⟨?_, ?_, ?_, ?_, ?_, ?_, ?_, by decide⟩
  · intro s h hm ho hne
    unfold urlStep
    rw [if_pos hm, ho]
    simp only [if_neg hne]
  · intro s hm ho
    unfold urlStep
    rw [if_pos hm, ho]
    rfl
  · intro s e hm he
    unfold urlStep
    rw [if_pos hm, he]
  · intro s hm
    unfold urlStep
    rw [hm]
    simp
  · intro s hw
    unfold wwwStep
    rw [if_pos hw]
  · intro s hw
    unfold wwwStep
    rw [hw]
    simp
  · intro s h hu
    unfold normalize_host
    rw [hu]

theorem normalization_order_witness :
    urlStep "https://www.LRV.lt/page" = Except.ok "www.LRV.lt" ∧
    urlStep "http://exam\tple.lt/x" = Except.ok "example.lt" ∧
    wwwStep "www.LRV.lt" = strDrop "www.LRV.lt" 4 ∧
    urlStep "LRV.lt" = Except.ok "LRV.lt" ∧
    process_domain tldextract_model (some "https://www.LRV.lt/page") =
      Except.ok (some "lrv.lt", none) :=
  ⟨normalization_order.1 "https://www.LRV.lt/page" "www.LRV.lt"
      (by decide) (by decide) (by decide),
   normalization_order.1 "http://exam\tple.lt/x" "example.lt"
      (by decide) (by decide) (by decide),
   normalization_order.2.2.2.2.1 "www.LRV.lt" (by decide),
   normalization_order.2.2.2.1 "LRV.lt" (by decide),
   normalization_order.2.2.2.2.2.2.2⟩

/-- C6: `process_domain` returns the rejection reason `ip address` exactly
for strings whose normalized host structurally matches four groups of one or
more digits separated by three dots, with no octet-range validation — so
`192.168.1.1` and also `999.999.999.999` are rejected as `ip address`, while
strings with fewer than three dots (such as `1.2.3`) fall through to later
checks. -/
theorem ip_address_reason_iff (extractFn : String → ExtractResult) (raw host : String)
    (h1 : pyStrip raw ≠ "")
    (hn : normalize_host (pyStrip raw) = Except.ok host) :
    (process_domain extractFn (some raw) = Except.ok (none, some "ip address") ↔
      isIpQuad host = true) ∧
    isIpQuad "192.168.1.1" = true ∧
    isIpQuad "999.999.999.999" = true ∧
    isIpQuad "1.2.3" = false ∧
    process_domain tldextract_model (some "192.168.1.1") =
      Except.ok (none, some "ip address") ∧
    process_domain tldextract_model (some "999.999.999.999") =
      Except.ok (none, some "ip address") := by
  have hred : process_domain extractFn (some raw) =
      if isIpQuad host = true then Except.ok (none, some "ip address")
      else if (!isValidChars host) = true then Except.ok (none, some "invalid characters")
      else Except.ok (classify (extractFn (pyLower host))) := by
    simp only [process_domain]
    rw [if_neg h1, hn]
  refine ⟨?_, by decide, by decide, by decide, by decide, by decide⟩
  constructor
  · intro h
    by_contra hq
    rw [hred, if_neg hq] at h
    by_cases h3 : (!isValidChars host) = true
    · rw [if_pos h3] at h
      exact absurd (Prod.mk.injEq .. ▸ Except.ok.inj h).2 (by simp)
    · rw [if_neg h3] at h
      rcases classify_cases (extractFn (pyLower host)) with ⟨d, hd⟩ | ⟨r, hr, hmem⟩
      · rw [hd] at h
        exact absurd (Prod.mk.injEq .. ▸ Except.ok.inj h).1 (by simp)
      · rw [hr] at h
        have hre : r = "ip address" :=
          Option.some.inj (Prod.mk.injEq .. ▸ Except.ok.inj h).2
        subst hre
        exact absurd hmem (by decide)
  · intro h
    rw [hred, if_pos h]

theorem ip_address_reason_iff_witness :
    (process_domain tldextract_model (some "192.168.1.1") =
        Except.ok (none, some "ip address") ↔
      isIpQuad "192.168.1.1" = true) ∧
    isIpQuad "192.168.1.1" = true ∧
    isIpQuad "999.999.999.999" = true ∧
    isIpQuad "1.2.3" = false ∧
    process_domain tldextract_model (some "192.168.1.1") =
      Except.ok (none, some "ip address") ∧
    process_domain tldextract_model (some "999.999.999.999") =
      Except.ok (none, some "ip address") :=
  ip_address_reason_iff tldextract_model "192.168.1.1" "192.168.1.1"
    (by decide) (by decide)

/-- A label free of all three hyphen violations. -/
def labelHyphenOk (l : List Char) : Prop :=
  startsWithHyphen l = false ∧ startsWithHyphen l.reverse = false ∧ hasConsecHyphens l = false

instance (l : List Char) : Decidable (labelHyphenOk l) := by
  unfold labelHyphenOk
  infer_instance

/-- The reason reported for a failing label, in the reference check order:
leading hyphen, then trailing hyphen, then consecutive hyphens. -/
def firstHyphenReason (l : List Char) : String :=
  if startsWithHyphen l then "hyphen at start of label"
  else if startsWithHyphen l.reverse then "hyphen at end of label"
  else "consecutive hyphens"

theorem hyphenCheck_ok_iff (ls : List (List Char)) :
    hyphenCheck ls = (true, none) ↔ ∀ l ∈ ls, labelHyphenOk l := by
  induction ls with
  | nil => simp [hyphenCheck]
  | cons l rest ih =>
    by_cases h1 : startsWithHyphen l = true
    · simp [hyphenCheck, h1, labelHyphenOk, List.forall_mem_cons]
    · rw [Bool.not_eq_true] at h1
      by_cases h2 : startsWithHyphen l.reverse = true
      · simp [hyphenCheck, h1, h2, labelHyphenOk, List.forall_mem_cons]
      · rw [Bool.not_eq_true] at h2
        by_cases h3 : hasConsecHyphens l = true
        · simp [hyphenCheck, h1, h2, h3, labelHyphenOk, List.forall_mem_cons]
        · rw [Bool.not_eq_true] at h3
          simp [hyphenCheck, h1, h2, h3, labelHyphenOk, List.forall_mem_cons, ih]

theorem hyphenCheck_first (pre : List (List Char)) (bad : List Char) (post : List (List Char))
    (hpre : ∀ l ∈ pre, labelHyphenOk l) (hbad : ¬labelHyphenOk bad) :
    hyphenCheck (pre ++ bad :: post) = (false, some (firstHyphenReason bad)) := by
  induction pre with
  | nil =>
    simp only [List.nil_append]
    by_cases h1 : startsWithHyphen bad = true
    · simp [hyphenCheck, h1, firstHyphenReason]
    · rw [Bool.not_eq_true] at h1
      by_cases h2 : startsWithHyphen bad.reverse = true
      · simp [hyphenCheck, h1, h2, firstHyphenReason]
      · rw [Bool.not_eq_true] at h2
        have h3 : hasConsecHyphens bad = true := by
          by_contra h3
          rw [Bool.not_eq_true] at h3
          exact hbad ⟨h1, h2, h3⟩
        simp [hyphenCheck, h1, h2, h3, firstHyphenReason]
  | cons p pre ih =>
    have hp := hpre p (List.mem_cons_self p pre)
    simp only [List.cons_append, hyphenCheck, hp.1, hp.2.1, hp.2.2]
    simp only [Bool.false_eq_true, if_false]
    exact ih (fun l hl => hpre l (List.mem_cons_of_mem p hl))

/-- C7: the hyphen validator evaluates labels in label order and, within each
label, checks leading hyphen, then trailing hyphen, then consecutive hyphens,
returning the reason of the first failing check of the first failing label;
for any string whose labels are all free of hyphen violations it reports
success; in particular `my--site.lt` is rejected with reason
`consecutive hyphens`. -/
theorem hyphen_rules_first_match :
    (∀ d, is_valid_hyphen_rules d = (true, none) ↔ ∀ l ∈ splitLabels d, labelHyphenOk l) ∧
    (∀ d pre bad post, splitLabels d = pre ++ bad :: post →
      (∀ l ∈ pre, labelHyphenOk l) → ¬labelHyphenOk bad →
      is_valid_hyphen_rules d = (false, some (firstHyphenReason bad))) ∧
    process_domain tldextract_model (some "my--site.lt") =
      Except.ok (none, some "consecutive hyphens") := by
  refine ⟨fun d => hyphenCheck_ok_iff _, ?_, by decide⟩
  intro d pre bad post heq hpre hbad
  unfold is_valid_hyphen_rules
  rw [heq]
  exact hyphenCheck_first pre bad post hpre hbad

theorem hyphen_rules_first_match_witness :
    (is_valid_hyphen_rules "ok-label.lt" = (true, none) ↔
      ∀ l ∈ splitLabels "ok-label.lt", labelHyphenOk l) ∧
    is_valid_hyphen_rules "my--site.lt" =
      (false, some (firstHyphenReason ['m', 'y', '-', '-', 's', 'i', 't', 'e'])) ∧
    process_domain tldextract_model (some "my--site.lt") =
      Except.ok (none, some "consecutive hyphens") :=
  ⟨hyphen_rules_first_match.1 "ok-label.lt",
   hyphen_rules_first_match.2.1 "my--site.lt" [] ['m', 'y', '-', '-', 's', 'i', 't', 'e']
     [['l', 't']] (by decide) (by decide) (by decide),
   hyphen_rules_first_match.2.2⟩

/-- C10: for every input string that is non-empty after whitespace trimming
but consists solely of `.` characters, `process_domain` returns the rejection
reason `invalid characters`, not `empty line`: stripping trailing dots yields
an empty working string, which then fails the character-whitelist check. -/
theorem dots_only_invalid_characters (extractFn : String → ExtractResult) (raw : String)
    (h1 : pyStrip raw ≠ "") (h2 : ∀ c ∈ (pyStrip raw).data, c = '.') :
    process_domain extractFn (some raw) = Except.ok (none, some "invalid characters") := by
  have hstrip : stripTrailingDots (pyStrip raw) = "" := by
    unfold stripTrailingDots
    have hnil : (pyStrip raw).data.reverse.dropWhile (fun c => c == '.') = [] := by
      rw [List.dropWhile_eq_nil_iff]
      intro a ha
      rw [List.mem_reverse] at ha
      simp [h2 a ha]
    rw [hnil]
    rfl
  have hnorm : normalize_host (pyStrip raw) = Except.ok "" := by
    unfold normalize_host
    rw [hstrip]
    decide
  have hred : process_domain extractFn (some raw) =
      if isIpQuad "" = true then Except.ok (none, some "ip address")
      else if (!isValidChars "") = true then Except.ok (none, some "invalid characters")
      else Except.ok (classify (extractFn (pyLower ""))) := by
    simp only [process_domain]
    rw [if_neg h1, hnorm]
  rw [hred]
  rw [if_neg (by decide : ¬(isIpQuad "" = true))]
  rw [if_pos (by decide : (!isValidChars "") = true)]

theorem dots_only_invalid_characters_witness :
    process_domain tldextract_model (some "...") =
      Except.ok (none, some "invalid characters") :=
  dots_only_invalid_characters tldextract_model "..." (by decide) (by decide)

/-- C8: for every input line sequence and every permutation of its lines, the
batch driver produces the same set of accepted canonical domains, and the
primary output lists each distinct domain exactly once in ascending codepoint
order (adjacent lines strictly increasing, hence no duplicates). -/
theorem driver_perm_invariant_sorted (extractFn : String → ExtractResult)
    (l₁ l₂ : List String) (h : l₁.Perm l₂) :
    clean_domains_set extractFn l₁ = clean_domains_set extractFn l₂ ∧
    List.Sorted (· < ·) (output_lines extractFn l₁) ∧
    ∀ x, x ∈ output_lines extractFn l₁ ↔ x ∈ clean_domains_set extractFn l₁ := by
  refine ⟨?_, ?_, ?_⟩
  · rw [clean_domains_set_eq, clean_domains_set_eq]
    exact List.toFinset_eq_of_perm _ _ (h.filterMap _)
  · exact Finset.sort_sorted_lt _
  · intro x
    exact Finset.mem_sort _

theorem driver_perm_invariant_sorted_witness :
    clean_domains_set tldextract_model ["example.lt", "btv.lt", "bad host"] =
      clean_domains_set tldextract_model ["btv.lt", "bad host", "example.lt"] ∧
    List.Sorted (· < ·)
      (output_lines tldextract_model ["example.lt", "btv.lt", "bad host"]) ∧
    ∀ x, x ∈ output_lines tldextract_model ["example.lt", "btv.lt", "bad host"] ↔
      x ∈ clean_domains_set tldextract_model ["example.lt", "btv.lt", "bad host"] :=
  driver_perm_invariant_sorted tldextract_model
    ["example.lt", "btv.lt", "bad host"] ["btv.lt", "bad host", "example.lt"] (by decide)
